import Mathlib

/-!
Verification development for the CodeCanvas drawing core.

The definitions below are a shallow embedding of the drawing-surface code in
src/components/canvas/SketchCanvas.tsx, of the history-integration wrapper in
src/components/canvas/SketchCanvasWithHistory.tsx, and of the history engine
used by src/app/canvas/page.tsx.  JavaScript numbers are modelled as rationals,
optional object fields as Option, and the JavaScript falsy-default idiom
`a || d` by the helpers jsOrStr and jsOrNum.  The useHistory hook itself is not
part of the available sources (only its callers are), so its operations are
modelled from the specification, as marked on each such definition.
-/

namespace CodeCanvas

/-- A 2D point, already transformed into surface-local coordinates. -/
structure Pt where
  x : ℚ
  y : ℚ
deriving DecidableEq, Repr

/-- JavaScript `a || d` on an optional string field: empty or missing falls back. -/
def jsOrStr (o : Option String) (d : String) : String :=
  match o with
  | some v => if v = "" then d else v
  | none => d

/-- JavaScript `a || d` on an optional numeric field: zero or missing falls back. -/
def jsOrNum (o : Option ℚ) (d : ℚ) : ℚ :=
  match o with
  | some v => if v = 0 then d else v
  | none => d

/-- Math.min on rationals, written with an explicit comparison so that it
evaluates by kernel reduction. -/
def jsMin (a b : ℚ) : ℚ := if a ≤ b then a else b

/-- Math.max on rationals, written with an explicit comparison so that it
evaluates by kernel reduction. -/
def jsMax (a b : ℚ) : ℚ := if a ≤ b then b else a

/-- LineData from SketchCanvas.tsx: a freehand stroke with a flat coordinate
list [x0, y0, x1, y1, ...]. -/
structure LineData where
  tool : String
  points : List ℚ
  color : Option String := none
  width : Option ℚ := none
deriving DecidableEq, Repr

/-- Shape kinds of ShapeData in SketchCanvas.tsx. -/
inductive ShapeKind where
  | rectangle
  | circle
  | text
  | image
deriving DecidableEq, Repr

/-- ShapeData from SketchCanvas.tsx. -/
structure ShapeData where
  id : String
  kind : ShapeKind
  x : ℚ
  y : ℚ
  width : Option ℚ := none
  height : Option ℚ := none
  radius : Option ℚ := none
  text : Option String := none
  fill : Option String := none
  stroke : Option String := none
  strokeWidth : Option ℚ := none
deriving DecidableEq, Repr

/-- The DrawingState of the canvas: the two mutable collections of
SketchCanvas.tsx.  This is the unit of snapshotting and history entries. -/
structure CanvasState where
  lines : List LineData
  shapes : List ShapeData
deriving DecidableEq, Repr

/-- clearCanvas from SketchCanvas.tsx: empties both collections. -/
def clearCanvas : CanvasState :=
  ⟨[], []⟩

/-- An incoming template/fragment shape: like ShapeData but with every field
the gallery might omit made optional, in particular the id. -/
structure TplShape where
  id : Option String := none
  kind : ShapeKind
  x : ℚ
  y : ℚ
  width : Option ℚ := none
  height : Option ℚ := none
  radius : Option ℚ := none
  text : Option String := none
  fill : Option String := none
  stroke : Option String := none
  strokeWidth : Option ℚ := none
deriving DecidableEq, Repr

/-- A fragment passed to insertTemplate: both collections optional. -/
structure Fragment where
  lines : Option (List LineData) := none
  shapes : Option (List TplShape) := none
deriving DecidableEq, Repr

/-- Normalization of one incoming shape inside insertTemplate
(SketchCanvas.tsx): spread of the incoming object, then
`id: s.id || fresh`, `stroke: s.stroke || strokeColor`,
`strokeWidth: s.strokeWidth || 2`, `fill: s.fill || "transparent"`.
The nondeterministic fresh id `shape-Date.now()-Math.random()` is modelled by
the caller-supplied generated id `fresh`. -/
def normShape (fresh : String) (strokeColor : String) (s : TplShape) : ShapeData :=
  { id := jsOrStr s.id fresh
    kind := s.kind
    x := s.x
    y := s.y
    width := s.width
    height := s.height
    radius := s.radius
    text := s.text
    fill := some (jsOrStr s.fill "transparent")
    stroke := some (jsOrStr s.stroke strokeColor)
    strokeWidth := some (jsOrNum s.strokeWidth 2) }

/-- insertTemplate from SketchCanvas.tsx: appends incoming lines verbatim and
appends the normalized incoming shapes.  The generator `gen` supplies the
would-be fresh id for the shape at each position of the fragment. -/
def insertTemplate (gen : ℕ → String) (strokeColor : String)
    (st : CanvasState) (data : Fragment) : CanvasState :=
  let lines1 :=
    match data.lines with
    | some ls => st.lines ++ ls
    | none => st.lines
  let shapes1 :=
    match data.shapes with
    | some ss => st.shapes ++ (ss.enum.map fun p => normShape (gen p.1) strokeColor p.2)
    | none => st.shapes
  ⟨lines1, shapes1⟩

/-- handleMouseUp from SketchCanvas.tsx: ends a shape drag.  Zero-size shapes
are discarded: a rectangle is committed only when its width is not 0, a circle
only when its radius is not 0 (the JavaScript comparisons
`currentShape.width !== 0` and `currentShape.radius !== 0`). -/
def handleMouseUp (shapes : List ShapeData) (currentShape : Option ShapeData) :
    List ShapeData × Option ShapeData :=
  match currentShape with
  | none => (shapes, none)
  | some cs =>
    if (cs.kind = ShapeKind.rectangle ∧ cs.width ≠ some 0) ∨
       (cs.kind = ShapeKind.circle ∧ cs.radius ≠ some 0) then
      (shapes ++ [cs], none)
    else
      (shapes, none)

/-- Rectangle hit test of the bin tool in handleMouseDown (SketchCanvas.tsx):
point within the axis-aligned box spanned by the two corners, tolerating a
negative width or height via min/max. -/
def rectHit (pos : Pt) (s : ShapeData) : Bool :=
  let x1 := s.x
  let y1 := s.y
  let x2 := s.x + jsOrNum s.width 0
  let y2 := s.y + jsOrNum s.height 0
  decide (jsMin x1 x2 ≤ pos.x ∧ pos.x ≤ jsMax x1 x2 ∧
    jsMin y1 y2 ≤ pos.y ∧ pos.y ≤ jsMax y1 y2)

/-- Circle hit test of the bin tool: squared distance against squared radius. -/
def circleHit (pos : Pt) (s : ShapeData) : Bool :=
  let dx := pos.x - s.x
  let dy := pos.y - s.y
  let r := jsOrNum s.radius 0
  decide (dx * dx + dy * dy ≤ r * r)

/-- Text hit test of the bin tool: a fixed 100 by 30 box at the text position. -/
def textHit (pos : Pt) (s : ShapeData) : Bool :=
  decide (s.x ≤ pos.x ∧ pos.x ≤ s.x + 100 ∧ s.y ≤ pos.y ∧ pos.y ≤ s.y + 30)

/-- Dispatch of the per-shape hit test in the bin tool.  Image shapes have no
branch in the source loop and are never hit. -/
def shapeHit (pos : Pt) (s : ShapeData) : Bool :=
  match s.kind with
  | ShapeKind.rectangle => rectHit pos s
  | ShapeKind.circle => circleHit pos s
  | ShapeKind.text => textHit pos s
  | ShapeKind.image => false

/-- The consecutive coordinate segments of a flat point list, as traversed by
the bin tool loop `for j = 0; j < points.length - 2; j += 2`. -/
def segsOf : List ℚ → List (ℚ × ℚ × ℚ × ℚ)
  | x1 :: y1 :: x2 :: y2 :: rest => (x1, y1, x2, y2) :: segsOf (x2 :: y2 :: rest)
  | _ => []

/-- Squared length of a segment. -/
def segLenSq (sg : ℚ × ℚ × ℚ × ℚ) : ℚ :=
  let (x1, y1, x2, y2) := sg
  (x2 - x1) * (x2 - x1) + (y2 - y1) * (y2 - y1)

/-- Squared distance from a point to a segment, with the projection parameter
clamped to [0, 1], exactly as computed by the bin tool. -/
def segDistSq (pos : Pt) (sg : ℚ × ℚ × ℚ × ℚ) : ℚ :=
  let (x1, y1, x2, y2) := sg
  let t := jsMax 0 (jsMin 1 (((pos.x - x1) * (x2 - x1) + (pos.y - y1) * (y2 - y1)) / segLenSq sg))
  let projX := x1 + t * (x2 - x1)
  let projY := y1 + t * (y2 - y1)
  (pos.x - projX) * (pos.x - projX) + (pos.y - projY) * (pos.y - projY)

/-- The hit-detection threshold of the bin tool for strokes, in pixels. -/
def hitThreshold : ℚ := 10

/-- Per-segment stroke hit of the bin tool: zero-length segments are skipped;
otherwise the distance to the segment is compared against
`hitThreshold + width / 2`.  The source compares unsquared distances, whose
left side is nonnegative, so the comparison is rendered as a nonnegativity
guard plus a squared comparison. -/
def segHit (pos : Pt) (w : ℚ) (sg : ℚ × ℚ × ℚ × ℚ) : Bool :=
  if segLenSq sg = 0 then false
  else
    let rhs := hitThreshold + w / 2
    decide (0 ≤ rhs ∧ segDistSq pos sg ≤ rhs * rhs)

/-- Stroke hit of the bin tool: some segment of the line is hit, with the
stroke width defaulting through `line.width || 5`. -/
def strokeHit (pos : Pt) (ln : LineData) : Bool :=
  (segsOf ln.points).any (segHit pos (jsOrNum ln.width 5))

/-- Index of the topmost (largest-index) element satisfying the predicate,
matching the source loops that run from `length - 1` down to 0. -/
def lastHitIdx {α : Type} (p : α → Bool) : List α → Option ℕ
  | [] => none
  | a :: rest =>
    match lastHitIdx p rest with
    | some i => some (i + 1)
    | none => if p a then some 0 else none

/-- The bin-tool branch of handleMouseDown (SketchCanvas.tsx): tests shapes
topmost first, then strokes topmost first, removes at most one primitive, and
reports whether a deletion occurred. -/
def handleMouseDownBin (pos : Pt) (st : CanvasState) : CanvasState × Bool :=
  match lastHitIdx (shapeHit pos) st.shapes with
  | some i => (⟨st.lines, st.shapes.eraseIdx i⟩, true)
  | none =>
    match lastHitIdx (strokeHit pos) st.lines with
    | some i => (⟨st.lines.eraseIdx i, st.shapes⟩, true)
    | none => (st, false)

/-- Modelled from the spec: the useHistory hook consumed by
src/app/canvas/page.tsx is not among the available sources, so the History
Engine state of spec section 4.2 is modelled here: a linear sequence of
entries and a cursor into it. -/
structure History (α : Type) where
  entries : List α
  cursor : ℕ
deriving DecidableEq, Repr

/-- Modelled from the spec: the initial history of useHistory, holding the
caller-supplied initial state as its only entry. -/
def initHistory {α : Type} (s : α) : History α :=
  ⟨[s], 0⟩

/-- Modelled from the spec: push of section 4.2.  If the cursor is at the last
index the state is appended, otherwise everything after the cursor is
truncated first; the cursor advances to the new last index; if the sequence
now exceeds capacity N, index 0 is removed and the cursor decremented. -/
def hpush {α : Type} (N : ℕ) (h : History α) (s : α) : History α :=
  let kept := h.entries.take (h.cursor + 1)
  let entries1 := kept ++ [s]
  let cursor1 := entries1.length - 1
  if N < entries1.length then ⟨entries1.drop 1, cursor1 - 1⟩ else ⟨entries1, cursor1⟩

/-- Modelled from the spec: undo of section 4.2, valid only when the cursor is
positive; a no-op at the lower bound. -/
def hundo {α : Type} (h : History α) : History α :=
  if 0 < h.cursor then ⟨h.entries, h.cursor - 1⟩ else h

/-- Modelled from the spec: redo of section 4.2, valid only when the cursor is
below the last index; a no-op at the upper bound. -/
def hredo {α : Type} (h : History α) : History α :=
  if h.cursor < h.entries.length - 1 then ⟨h.entries, h.cursor + 1⟩ else h

/-- Modelled from the spec: canUndo, a pure predicate on the cursor. -/
def canUndo {α : Type} (h : History α) : Bool :=
  decide (0 < h.cursor)

/-- Modelled from the spec: canRedo, a pure predicate on the cursor. -/
def canRedo {α : Type} (h : History α) : Bool :=
  decide (h.cursor < h.entries.length - 1)

/-- The entry the cursor points to, with a fallback for the unreachable
out-of-range case (history.state is always defined after initialization). -/
def hcurrent {α : Type} (h : History α) (d : α) : α :=
  match h.entries.get? h.cursor with
  | some v => v
  | none => d

/-- Operations driving the history engine, for whole-run invariants. -/
inductive HOp where
  | push (s : CanvasState)
  | undo
  | redo

/-- One history-engine operation. -/
def applyHOp (N : ℕ) (h : History CanvasState) : HOp → History CanvasState
  | HOp.push s => hpush N h s
  | HOp.undo => hundo h
  | HOp.redo => hredo h

/-- A run of history-engine operations from a starting history. -/
def applyHOps (N : ℕ) (h : History CanvasState) (ops : List HOp) : History CanvasState :=
  ops.foldl (applyHOp N) h

/-- A run of pushes only. -/
def pushAll (N : ℕ) (h : History CanvasState) (ss : List CanvasState) : History CanvasState :=
  ss.foldl (hpush N) h

/-- The joint state of the SketchCanvasWithHistory wrapper (the variant with
the isApplyingHistory flag): the live canvas data, the canvasState prop fed
from the history hook, the history itself, and the suppression flag. -/
structure BridgeState where
  canvas : CanvasState
  histState : CanvasState
  hist : History CanvasState
  applying : Bool
deriving DecidableEq, Repr

/-- View of a canvas shape as insertTemplate input: restoring a history entry
passes its ShapeData objects (all fields present) back through insertTemplate,
so every field is wrapped as supplied. -/
def toTpl (s : ShapeData) : TplShape :=
  { id := some s.id, kind := s.kind, x := s.x, y := s.y, width := s.width,
    height := s.height, radius := s.radius, text := s.text, fill := s.fill,
    stroke := s.stroke, strokeWidth := s.strokeWidth }

/-- A whole canvas state as the fragment the restore path feeds back into
insertTemplate. -/
def asFragment (st : CanvasState) : Fragment :=
  ⟨some st.lines, some (st.shapes.map toTpl)⟩

/-- The restore path of the apply-history effect in
SketchCanvasWithHistory.tsx: clearCanvas(), then, when the entry is non-empty,
insertTemplate(canvasState).  The lines come back verbatim but every shape
passes through insertTemplate normalization again, which fills in missing or
falsy stroke, strokeWidth and fill fields; the restored canvas therefore need
not be structurally equal to the entry. -/
def restoreOf (gen : ℕ → String) (strokeColor : String) (st : CanvasState) : CanvasState :=
  if 0 < st.lines.length ∨ 0 < st.shapes.length then
    insertTemplate gen strokeColor clearCanvas (asFragment st)
  else clearCanvas

/-- One run of the apply-history effect of SketchCanvasWithHistory.tsx: it
returns early while the suppression flag is up; otherwise, when the live
canvas differs structurally from the history state, it raises the flag, clears
the canvas and re-inserts the history state through insertTemplate (the
restoreOf normalization), scheduling a flag reset 100 ms later.  React runs
this effect again after every state change it observes, so the model applies
it after each event. -/
def applyHistoryPass (gen : ℕ → String) (strokeColor : String) (b : BridgeState) :
    BridgeState :=
  if b.applying = true then b
  else if b.canvas = b.histState then b
  else { b with canvas := restoreOf gen strokeColor b.histState, applying := true }

/-- An undo request as wired in page.tsx and SketchCanvasWithHistory.tsx: the
hook moves its cursor back (modelled from the spec, section 4.2), canvasState
becomes the entry now pointed to, and the apply-history effect runs on the
resulting state. -/
def undoRequest (gen : ℕ → String) (strokeColor : String) (b : BridgeState) : BridgeState :=
  applyHistoryPass gen strokeColor
    { b with hist := hundo b.hist, histState := hcurrent (hundo b.hist) b.histState }

/-- A redo request, symmetric to undoRequest. -/
def redoRequest (gen : ℕ → String) (strokeColor : String) (b : BridgeState) : BridgeState :=
  applyHistoryPass gen strokeColor
    { b with hist := hredo b.hist, histState := hcurrent (hredo b.hist) b.histState }

/-- Expiry of the 100 ms suppression timeout, followed by the effect pass that
React runs on the flag change: the apply-history effect re-raises suppression
and restores again whenever the canvas still differs from the history state. -/
def suppressTimeout (gen : ℕ → String) (strokeColor : String) (b : BridgeState) :
    BridgeState :=
  applyHistoryPass gen strokeColor { b with applying := false }

/-- An undo on a human timescale: the undo request, then the pending
suppression timeout expires before the next user action. -/
def undoStep (gen : ℕ → String) (strokeColor : String) (b : BridgeState) : BridgeState :=
  suppressTimeout gen strokeColor (undoRequest gen strokeColor b)

/-- A redo on a human timescale, symmetric to undoStep. -/
def redoStep (gen : ℕ → String) (strokeColor : String) (b : BridgeState) : BridgeState :=
  suppressTimeout gen strokeColor (redoRequest gen strokeColor b)

/-- One tick of the 500 ms polling effect of SketchCanvasWithHistory.tsx: it
does nothing while the suppression flag is up; otherwise, when the canvas data
differs from the history state it reports the new state, which the hook
records (modelled from the spec as a push with the page capacity of 50). -/
def pollTick (b : BridgeState) : BridgeState :=
  if b.applying then b
  else if b.canvas = b.histState then b
  else { b with hist := hpush 50 b.hist b.canvas, histState := b.canvas }

/-- Expiry of the 100 ms setTimeout that lowers the suppression flag. -/
def flagReset (b : BridgeState) : BridgeState :=
  { b with applying := false }

/-- Asynchronous events that can interleave after a user action: a poll tick
or a suppression-flag reset. -/
inductive BridgeEv where
  | poll
  | reset

/-- One asynchronous bridge event. -/
def stepEv (b : BridgeState) : BridgeEv → BridgeState
  | BridgeEv.poll => pollTick b
  | BridgeEv.reset => flagReset b

/-- A sequence of asynchronous bridge events. -/
def runEvents (evs : List BridgeEv) (b : BridgeState) : BridgeState :=
  evs.foldl stepEv b

/-- One asynchronous event followed by the React effect pass: a poll tick
(whose state change re-runs the effects) or a suppression-timeout expiry. -/
def stepEvF (gen : ℕ → String) (strokeColor : String) (b : BridgeState) :
    BridgeEv → BridgeState
  | BridgeEv.poll => applyHistoryPass gen strokeColor (pollTick b)
  | BridgeEv.reset => suppressTimeout gen strokeColor b

/-- A sequence of asynchronous events, the apply-history effect running after
each one. -/
def runEventsF (gen : ℕ → String) (strokeColor : String) (evs : List BridgeEv)
    (b : BridgeState) : BridgeState :=
  evs.foldl (stepEvF gen strokeColor) b

/-- The insertTemplate wrapper of SketchCanvasWithHistory.tsx: it mutates the
canvas through the inner insertTemplate and schedules a one-shot state sync
100 ms later; the canvas mutation itself is this function, the deferred sync
is syncStep. -/
def insertFragmentOp (gen : ℕ → String) (strokeColor : String)
    (frag : Fragment) (b : BridgeState) : BridgeState :=
  { b with canvas := insertTemplate gen strokeColor b.canvas frag }

/-- The deferred state sync of the insertTemplate wrapper: it reads the canvas
data and reports it unconditionally (no equality check and no suppression
check on this path), which the hook records as a push (modelled from the
spec). -/
def syncStep (b : BridgeState) : BridgeState :=
  { b with hist := hpush 50 b.hist b.canvas, histState := b.canvas }

/-- A quiescent wrapper state built on a given history: canvas and canvasState
agree with the current entry and no restore is in flight. -/
def mkBridge (h : History CanvasState) : BridgeState :=
  ⟨hcurrent h clearCanvas, hcurrent h clearCanvas, h, false⟩

/-- A heap of JavaScript arrays, needed to express aliasing between the live
state arrays and what getCanvasData returns: addresses below `next` are
allocated, and each address holds a line array and a shape array slot. -/
structure CanvasHeap where
  lineMem : ℕ → List LineData
  shapeMem : ℕ → List ShapeData
  next : ℕ

/-- The references the component state holds to its two live arrays. -/
structure CanvasRefs where
  linesRef : ℕ
  shapesRef : ℕ
deriving DecidableEq, Repr

/-- getCanvasData from SketchCanvas.tsx: `({ lines, shapes, width, height })`.
The object literal returns the live `lines` and `shapes` arrays themselves; no
copy of either array is made. -/
def getCanvasData (c : CanvasRefs) : CanvasRefs :=
  ⟨c.linesRef, c.shapesRef⟩

/-- Dereference a line-array reference. -/
def readLines (h : CanvasHeap) (r : ℕ) : List LineData :=
  h.lineMem r

/-- Dereference a shape-array reference. -/
def readShapes (h : CanvasHeap) (r : ℕ) : List ShapeData :=
  h.shapeMem r

/-- An in-place write through a line-array reference, as a caller holding the
returned snapshot could perform. -/
def writeLines (h : CanvasHeap) (r : ℕ) (v : List LineData) : CanvasHeap :=
  { h with lineMem := fun a => if a = r then v else h.lineMem a }

/-- A committing edit of the component itself, such as
`setShapes([...shapes, currentShape])` in handleMouseUp: the spread allocates
a fresh array with the appended element and the state reference is repointed
to it; the old array is not mutated. -/
def commitShapeHeap (h : CanvasHeap) (c : CanvasRefs) (s : ShapeData) :
    CanvasHeap × CanvasRefs :=
  let arr := h.shapeMem c.shapesRef ++ [s]
  ({ h with
      shapeMem := fun a => if a = h.next then arr else h.shapeMem a
      next := h.next + 1 },
   { c with shapesRef := h.next })

/-- The id generator used in concrete insertTemplate scenarios, standing in
for the `shape-Date.now()-Math.random()` expression. -/
def cexGen : ℕ → String := fun i => "fresh-" ++ toString i

/-- A canvas already holding one rectangle whose id is "dup". -/
def cexCanvas : CanvasState :=
  ⟨[], [{ id := "dup", kind := ShapeKind.rectangle, x := 0, y := 0 }]⟩

/-- A fragment whose one shape carries the externally supplied id "dup". -/
def cexFragment : Fragment :=
  ⟨none, some [{ id := some "dup", kind := ShapeKind.rectangle, x := 10, y := 10,
                 width := some 50, height := some 20 }]⟩

/-- The claim-side stroke condition: the segment is nondegenerate and the
clamped distance from the click to it is at most `hitThreshold + w / 2`,
stated on squared distances since the threshold side is also required
nonnegative. -/
def SegWithin (pos : Pt) (w : ℚ) (sg : ℚ × ℚ × ℚ × ℚ) : Prop :=
  segLenSq sg ≠ 0 ∧ 0 ≤ hitThreshold + w / 2 ∧
    segDistSq pos sg ≤ (hitThreshold + w / 2) * (hitThreshold + w / 2)

/-- The rectangle of the concrete hit-test scenario, spanning the box from
(200, 200) to (320, 245). -/
def binRect : ShapeData :=
  { id := "r1", kind := ShapeKind.rectangle, x := 200, y := 200,
    width := some 120, height := some 45 }

/-- A canvas holding only that rectangle. -/
def binExample : CanvasState :=
  ⟨[], [binRect]⟩

/-- A canvas holding the rectangle and a pen stroke running right through the
click point, inserted after the rectangle. -/
def binOverlap : CanvasState :=
  ⟨[{ tool := "pen", points := [205, 205, 215, 215], color := none, width := some 5 }],
   [binRect]⟩

/-- Cursor-at-top well-formedness of a history. -/
def wfH (h : History CanvasState) : Prop :=
  h.cursor + 1 = h.entries.length ∧ ∃ v, h.entries.get? h.cursor = some v

/-- The spec round-trip fragment: one rectangle at (10, 10) of size 50 by 20
with no supplied id. -/
def rectFragment : Fragment :=
  ⟨none, some [{ kind := ShapeKind.rectangle, x := 10, y := 10,
                 width := some 50, height := some 20 }]⟩

/-- A quiescent one-entry bridge over the empty canvas. -/
def quiesBridge : BridgeState :=
  mkBridge (initHistory clearCanvas)

/-- A two-array heap whose live line array sits at address 0 and live shape
array at address 1, both empty. -/
def heap0 : CanvasHeap :=
  ⟨fun _ => [], fun _ => [], 2⟩

/-- The component references into that heap. -/
def refs0 : CanvasRefs :=
  ⟨0, 1⟩

/-- A small concrete stroke. -/
def penLine : LineData :=
  { tool := "pen", points := [1, 2] }

/-- A text shape as created by handleTextSubmit in SketchCanvas.tsx: stroke
and fill are set to the current stroke color and no strokeWidth is assigned. -/
def textShapeData : ShapeData :=
  { id := "t1", kind := ShapeKind.text, x := 5, y := 6, text := some "hi",
    stroke := some "#000000", fill := some "#000000" }

/-- A canvas holding only that text shape, as a history entry pushed verbatim
by the polling loop. -/
def textCanvas : CanvasState :=
  ⟨[], [textShapeData]⟩

/-- A canvas whose one shape already carries every style field the restore
normalization fills in, so restoring it reproduces it exactly. -/
def normCanvas : CanvasState :=
  ⟨[], [{ id := "n1", kind := ShapeKind.rectangle, x := 1, y := 2, width := some 3,
          height := some 4, stroke := some "#111111", strokeWidth := some 2,
          fill := some "transparent" }]⟩

/-! Theorems. -/

/-- C6: ending an interactive shape drag through handleMouseUp with an
in-progress rectangle of width 0 or an in-progress circle of radius 0 leaves
the shapes collection unchanged; otherwise the in-progress shape is appended. -/
theorem commitShape_zero_extent (shapes : List ShapeData) (cs : ShapeData) :
    (cs.kind = ShapeKind.rectangle → cs.width = some 0 →
      (handleMouseUp shapes (some cs)).1 = shapes) ∧
    (cs.kind = ShapeKind.circle → cs.radius = some 0 →
      (handleMouseUp shapes (some cs)).1 = shapes) ∧
    (cs.kind = ShapeKind.rectangle → cs.width ≠ some 0 →
      (handleMouseUp shapes (some cs)).1 = shapes ++ [cs]) ∧
    (cs.kind = ShapeKind.circle → cs.radius ≠ some 0 →
      (handleMouseUp shapes (some cs)).1 = shapes ++ [cs]) := by
  refine ⟨fun hk hw => ?_, fun hk hr => ?_, fun hk hw => ?_, fun hk hr => ?_⟩
  · simp [handleMouseUp, hk, hw]
  · simp [handleMouseUp, hk, hr]
  · simp [handleMouseUp, hk, hw]
  · simp [handleMouseUp, hk, hr]

/-- C6 witness: a zero-width rectangle drag commits nothing, while a
one-pixel-wide rectangle drag appends the shape. -/
theorem commitShape_zero_extent_witness :
    (handleMouseUp []
      (some { id := "a", kind := ShapeKind.rectangle, x := 5, y := 5,
              width := some 0, height := some 7 })).1 = [] ∧
    (handleMouseUp []
      (some { id := "b", kind := ShapeKind.rectangle, x := 5, y := 5,
              width := some 1, height := some 7 })).1 =
      [{ id := "b", kind := ShapeKind.rectangle, x := 5, y := 5,
         width := some 1, height := some 7 }] :=
  ⟨(commitShape_zero_extent [] _).1 rfl rfl,
   (commitShape_zero_extent [] _).2.2.1 rfl (by decide)⟩

/-- C2 counterexample: inserting a fragment whose shape carries the externally
supplied id "dup" onto a canvas that already holds a shape with id "dup" keeps
the supplied id, so the resulting id list ["dup", "dup"] is not collision
free: the appended primitive is neither freshly identified nor distinct from
the identifiers already present. -/
theorem insertTemplate_external_id_cex :
    ((insertTemplate cexGen "#000000" cexCanvas cexFragment).shapes.map ShapeData.id =
      ["dup", "dup"]) ∧
    ¬ ((insertTemplate cexGen "#000000" cexCanvas cexFragment).shapes.map
        ShapeData.id).Nodup := by
  constructor
  · decide
  · decide

/-- C2 amended: insertTemplate appends the normalized fragment shapes in
order; a shape whose supplied id is present and non-empty keeps that id
verbatim (it is trusted, not replaced), and only a shape with a missing id
receives the generated one. -/
theorem insertTemplate_id_policy (gen : ℕ → String) (col : String)
    (st : CanvasState) (ss : List TplShape) (i : ℕ) (s : TplShape)
    (hget : ss.get? i = some s) :
    ((insertTemplate gen col st ⟨none, some ss⟩).shapes.get? (st.shapes.length + i) =
      some (normShape (gen i) col s)) ∧
    (∀ v, s.id = some v → v ≠ "" → (normShape (gen i) col s).id = v) ∧
    (s.id = none → (normShape (gen i) col s).id = gen i) := by
  refine ⟨?_, fun v hv hne => ?_, fun hnone => ?_⟩
  · simp only [insertTemplate, List.get?_append_right (Nat.le_add_right _ _),
      Nat.add_sub_cancel_left]
    rw [List.get?_map, List.get?_enum, hget]
    rfl
  · simp [normShape, jsOrStr, hv, hne]
  · simp [normShape, jsOrStr, hnone]

/-- C2 amended witness: in the counterexample canvas and fragment, the shape
at fragment position 0 keeps its supplied id "dup". -/
theorem insertTemplate_id_policy_witness :
    ((insertTemplate cexGen "#000000" cexCanvas cexFragment).shapes.get? 1 =
      some (normShape (cexGen 0) "#000000"
        { id := some "dup", kind := ShapeKind.rectangle, x := 10, y := 10,
          width := some 50, height := some 20 })) ∧
    (normShape (cexGen 0) "#000000"
        { id := some "dup", kind := ShapeKind.rectangle, x := 10, y := 10,
          width := some 50, height := some 20 }).id = "dup" := by
  have h := insertTemplate_id_policy cexGen "#000000" cexCanvas
    [{ id := some "dup", kind := ShapeKind.rectangle, x := 10, y := 10,
       width := some 50, height := some 20 }] 0
    { id := some "dup", kind := ShapeKind.rectangle, x := 10, y := 10,
      width := some 50, height := some 20 } rfl
  exact ⟨h.1, h.2.1 "dup" rfl (by decide)⟩

/-- C4: pushing while the cursor is not at the last index first removes every
entry after the cursor and then appends, leaving the cursor at the new last
index; in particular on entries [a, b, c, d] with the cursor at b, pushing e
yields [a, b, e] with the cursor at e. -/
theorem push_midcursor_truncates {α : Type} :
    (∀ (N : ℕ) (h : History α) (s : α), h.cursor + 2 ≤ h.entries.length →
      h.entries.length ≤ N →
      (hpush N h s).entries = h.entries.take (h.cursor + 1) ++ [s] ∧
      (hpush N h s).cursor = h.cursor + 1 ∧
      (hpush N h s).entries.length = (hpush N h s).cursor + 1) ∧
    (∀ (a b c d e : α) (h4 : History α), h4.entries = [a, b, c, d] → h4.cursor = 1 →
      hpush 50 h4 e = ⟨[a, b, e], 2⟩) := by
  constructor
  · intro N h s hmid hcap
    have ht : (h.entries.take (h.cursor + 1)).length = h.cursor + 1 := by
      rw [List.length_take]; omega
    have hlen1 : (h.entries.take (h.cursor + 1) ++ [s]).length = h.cursor + 2 := by
      rw [List.length_append, ht]; rfl
    have hnot : ¬ N < (h.entries.take (h.cursor + 1) ++ [s]).length := by
      rw [hlen1]; omega
    have h1 : (hpush N h s).entries = h.entries.take (h.cursor + 1) ++ [s] := by
      simp only [hpush, if_neg hnot]
    have h2 : (hpush N h s).cursor = h.cursor + 1 := by
      simp only [hpush, if_neg hnot]
      rw [hlen1]
      omega
    refine ⟨h1, h2, ?_⟩
    rw [h1, h2, hlen1]
  · intro a b c d e h4 he hc
    cases h4
    cases he
    cases hc
    rfl

/-- C4 witness: the concrete truncation scenario at natural-number entries. -/
theorem push_midcursor_truncates_witness :
    hpush 50 (⟨[0, 1, 2, 3], 1⟩ : History ℕ) 4 = ⟨[0, 1, 4], 2⟩ ∧
    (hpush 50 (⟨[0, 1, 2, 3], 1⟩ : History ℕ) 4).cursor = 1 + 1 :=
  ⟨push_midcursor_truncates.2 0 1 2 3 4 _ rfl rfl,
   (push_midcursor_truncates.1 50 ⟨[0, 1, 2, 3], 1⟩ 4 (by decide) (by decide)).2.1⟩

/-- One history operation cannot grow the history beyond the capacity. -/
theorem applyHOp_length_le (N : ℕ) (h : History CanvasState) (op : HOp)
    (hle : h.entries.length ≤ N) : (applyHOp N h op).entries.length ≤ N := by
  cases op with
  | push s =>
    have hkle : (h.entries.take (h.cursor + 1)).length ≤ h.entries.length := by
      rw [List.length_take]
      exact min_le_right _ _
    simp only [applyHOp, hpush]
    split
    · simp only [List.length_drop, List.length_append, List.length_cons,
        List.length_nil]
      omega
    · rename_i hnlt
      dsimp only at hnlt ⊢
      omega
  | undo =>
    simp only [applyHOp, hundo]
    split <;> exact hle
  | redo =>
    simp only [applyHOp, hredo]
    split <;> exact hle

/-- A run of history operations cannot grow the history beyond the capacity. -/
theorem applyHOps_length_le (N : ℕ) (ops : List HOp) :
    ∀ (h : History CanvasState), h.entries.length ≤ N →
      (applyHOps N h ops).entries.length ≤ N := by
  induction ops with
  | nil => intro h hle; exact hle
  | cons op rest ih =>
    intro h hle
    exact ih (applyHOp N h op) (applyHOp_length_le N h op hle)

/-- C5: under every sequence of operations the history holds at most N
entries; a push onto a full history with the cursor at the last index keeps
exactly N entries, keeps the cursor at the last index (decremented relative to
an uncapped push), and shifts the sequence so that afterwards entry 0 is what
entry 1 was before. -/
theorem history_capacity_bound (N : ℕ) (hN : 1 ≤ N) :
    (∀ (ops : List HOp) (s0 : CanvasState),
      (applyHOps N (initHistory s0) ops).entries.length ≤ N) ∧
    (∀ (h : History CanvasState) (s : CanvasState),
      h.entries.length = N → h.cursor = N - 1 →
      (hpush N h s).entries.length = N ∧
      (hpush N h s).cursor = N - 1 ∧
      (hpush N h s).entries = h.entries.drop 1 ++ [s] ∧
      (2 ≤ N → (hpush N h s).entries.get? 0 = h.entries.get? 1)) := by
  constructor
  · intro ops s0
    refine applyHOps_length_le N ops (initHistory s0) ?_
    simpa [initHistory] using hN
  · intro h s hlen hc
    obtain ⟨en, cu⟩ := h
    dsimp only at hlen hc ⊢
    subst hc
    obtain ⟨a, t, rfl⟩ : ∃ a t, en = a :: t := by
      cases hE : en with
      | nil =>
        rw [hE] at hlen
        simp at hlen
        omega
      | cons a t => exact ⟨a, t, rfl⟩
    have hlen2 : t.length + 1 = N := by simpa using hlen
    have h1 : (a :: t).take (N - 1 + 1) = a :: t := by
      have hN1 : N - 1 + 1 = N := by omega
      rw [hN1, ← hlen, List.take_length]
    have hlt : N < ((a :: t) ++ [s]).length := by
      simp only [List.length_append, List.length_cons, List.length_nil]
      omega
    have hres : hpush N (⟨a :: t, N - 1⟩ : History CanvasState) s = ⟨t ++ [s], N - 1⟩ := by
      simp only [hpush, h1, if_pos hlt]
      congr 1
      simp only [List.length_append, List.length_cons, List.length_nil]
      omega
    rw [hres]
    refine ⟨?_, rfl, rfl, ?_⟩
    · simp only [List.length_append, List.length_cons, List.length_nil]
      omega
    · intro hN2
      cases t with
      | nil =>
        exfalso
        simp at hlen2
        omega
      | cons b t2 => rfl

/-- C5 witness: with capacity 2, any operation run stays within 2 entries, and
pushing onto a full history drops the oldest entry. -/
theorem history_capacity_bound_witness :
    (applyHOps 2 (initHistory clearCanvas)
      [HOp.push cexCanvas, HOp.push clearCanvas, HOp.push cexCanvas]).entries.length ≤ 2 ∧
    (hpush 2 (⟨[clearCanvas, cexCanvas], 1⟩ : History CanvasState) clearCanvas).entries.get? 0 =
      some cexCanvas :=
  ⟨(history_capacity_bound 2 (by decide)).1
      [HOp.push cexCanvas, HOp.push clearCanvas, HOp.push cexCanvas] clearCanvas,
   by
    have h := ((history_capacity_bound 2 (by decide)).2
      ⟨[clearCanvas, cexCanvas], 1⟩ clearCanvas (by decide) (by decide)).2.2.2 (by decide)
    rw [h]; decide⟩

/-- The boolean per-segment test agrees with the claim-side condition. -/
theorem segHit_iff (pos : Pt) (w : ℚ) (sg : ℚ × ℚ × ℚ × ℚ) :
    segHit pos w sg = true ↔ SegWithin pos w sg := by
  simp only [segHit, SegWithin]
  split_ifs with h
  · simp [h]
  · simp [h]

/-- A topmost-first search only returns indices inside the list. -/
theorem lastHitIdx_lt {α : Type} (p : α → Bool) :
    ∀ (l : List α) (i : ℕ), lastHitIdx p l = some i → i < l.length := by
  intro l
  induction l with
  | nil => intro i h; simp [lastHitIdx] at h
  | cons a rest ih =>
    intro i h
    simp only [lastHitIdx] at h
    cases hE : lastHitIdx p rest with
    | some j =>
      rw [hE] at h
      cases h
      have := ih j hE
      simp only [List.length_cons]
      omega
    | none =>
      rw [hE] at h
      by_cases hp : p a
      · rw [if_pos hp] at h
        cases h
        simp
      · rw [if_neg hp] at h
        cases h

/-- A topmost-first search succeeds whenever some element is hit. -/
theorem lastHitIdx_isSome_of_mem {α : Type} (p : α → Bool) :
    ∀ (l : List α) (a : α), a ∈ l → p a = true → ∃ i, lastHitIdx p l = some i := by
  intro l
  induction l with
  | nil => intro a ha _; cases ha
  | cons b rest ih =>
    intro a ha hp
    simp only [lastHitIdx]
    cases hE : lastHitIdx p rest with
    | some j => exact ⟨j + 1, rfl⟩
    | none =>
      rcases List.mem_cons.mp ha with h | h
      · subst h
        exact ⟨0, by rw [if_pos hp]⟩
      · obtain ⟨j, hj⟩ := ih a h hp
        rw [hj] at hE
        cases hE

/-- The click at (210, 210) lands inside the example rectangle. -/
theorem binRect_hit : shapeHit ⟨210, 210⟩ binRect = true := by
  norm_num [shapeHit, binRect, rectHit, jsMin, jsMax, jsOrNum]

/-- The click at (0, 0) misses the example rectangle. -/
theorem binRect_miss : shapeHit ⟨0, 0⟩ binRect = false := by
  norm_num [shapeHit, binRect, rectHit, jsMin, jsMax, jsOrNum]

/-- C7: the bin-tool click handler removes at most one primitive per call and
its boolean result reports whether a deletion occurred (the retained primitive
count plus the deletion flag is conserved); on the canvas with the rectangle
spanning (200, 200) to (320, 245), a click at (210, 210) removes exactly that
rectangle and reports true while a click at (0, 0) removes nothing and reports
false; and a stroke is hit exactly when some segment of it is nondegenerate
and lies within distance `hitThreshold + strokeWidth / 2` of the click. -/
theorem hitTestAndDelete_spec :
    (∀ (pos : Pt) (st : CanvasState),
      (handleMouseDownBin pos st).1.lines.length +
        (handleMouseDownBin pos st).1.shapes.length +
        (if (handleMouseDownBin pos st).2 then 1 else 0) =
      st.lines.length + st.shapes.length) ∧
    handleMouseDownBin ⟨210, 210⟩ binExample = (⟨[], []⟩, true) ∧
    handleMouseDownBin ⟨0, 0⟩ binExample = (binExample, false) ∧
    (∀ (pos : Pt) (ln : LineData),
      strokeHit pos ln = true ↔
        ∃ sg ∈ segsOf ln.points, SegWithin pos (jsOrNum ln.width 5) sg) := by
  refine ⟨?_,
    by simp [handleMouseDownBin, lastHitIdx, binExample, binRect_hit, List.eraseIdx],
    by simp [handleMouseDownBin, lastHitIdx, binExample, binRect_miss, strokeHit, segsOf],
    ?_⟩
  · intro pos st
    unfold handleMouseDownBin
    cases hs : lastHitIdx (shapeHit pos) st.shapes with
    | some i =>
      have hi := lastHitIdx_lt (shapeHit pos) st.shapes i hs
      have hlen := List.length_eraseIdx_add_one hi
      simp only [if_pos]
      omega
    | none =>
      cases hl : lastHitIdx (strokeHit pos) st.lines with
      | some i =>
        have hi := lastHitIdx_lt (strokeHit pos) st.lines i hl
        have hlen := List.length_eraseIdx_add_one hi
        simp only [if_pos]
        omega
      | none => simp
  · intro pos ln
    simp only [strokeHit, List.any_eq_true]
    constructor
    · rintro ⟨sg, hmem, hhit⟩
      exact ⟨sg, hmem, (segHit_iff pos _ sg).mp hhit⟩
    · rintro ⟨sg, hmem, hw⟩
      exact ⟨sg, hmem, (segHit_iff pos _ sg).mpr hw⟩

/-- C10: whenever the click lies inside some shape, the bin tool deletes a
shape and every stroke is retained, because all shapes are tested before any
stroke. -/
theorem binTool_shape_priority (pos : Pt) (st : CanvasState)
    (hhit : ∃ s ∈ st.shapes, shapeHit pos s = true) :
    (handleMouseDownBin pos st).1.lines = st.lines ∧
    (handleMouseDownBin pos st).2 = true ∧
    (handleMouseDownBin pos st).1.shapes.length + 1 = st.shapes.length := by
  obtain ⟨s, hmem, hs⟩ := hhit
  obtain ⟨i, hi⟩ := lastHitIdx_isSome_of_mem (shapeHit pos) st.shapes s hmem hs
  have hlt := lastHitIdx_lt (shapeHit pos) st.shapes i hi
  have hlen := List.length_eraseIdx_add_one hlt
  unfold handleMouseDownBin
  rw [hi]
  exact ⟨rfl, rfl, hlen⟩

/-- C10 witness: a click at (210, 210) lies both inside the rectangle and on
the stroke, and the shape is the one removed while the stroke survives. -/
theorem binTool_shape_priority_witness :
    (handleMouseDownBin ⟨210, 210⟩ binOverlap).1.lines = binOverlap.lines ∧
    (handleMouseDownBin ⟨210, 210⟩ binOverlap).2 = true ∧
    (handleMouseDownBin ⟨210, 210⟩ binOverlap).1.shapes.length + 1 =
      binOverlap.shapes.length :=
  binTool_shape_priority ⟨210, 210⟩ binOverlap
    ⟨binRect, List.mem_singleton.mpr rfl, binRect_hit⟩

/-- Undo leaves the entry sequence untouched and moves the cursor back. -/
theorem hundo_parts {α : Type} (h : History α) :
    (hundo h).entries = h.entries ∧ (hundo h).cursor = h.cursor - 1 := by
  simp only [hundo]
  split_ifs with hc
  · exact ⟨rfl, rfl⟩
  · exact ⟨rfl, by omega⟩

/-- A bridge state whose canvas agrees with the history state is a fixed point
of every asynchronous event. -/
theorem stepEv_fixed (b : BridgeState) (hq : b.canvas = b.histState) (e : BridgeEv) :
    (stepEv b e).canvas = b.canvas ∧ (stepEv b e).histState = b.histState ∧
    (stepEv b e).hist = b.hist := by
  cases e with
  | poll => simp [stepEv, pollTick, hq]
  | reset => simp [stepEv, flagReset]

/-- A quiescent bridge state keeps its canvas, its history state and its whole
history under any sequence of poll ticks and flag resets. -/
theorem runEvents_fixed (evs : List BridgeEv) :
    ∀ (b : BridgeState), b.canvas = b.histState →
      (runEvents evs b).canvas = b.canvas ∧
      (runEvents evs b).histState = b.histState ∧
      (runEvents evs b).hist = b.hist := by
  induction evs with
  | nil => intro b _; exact ⟨rfl, rfl, rfl⟩
  | cons e rest ih =>
    intro b hq
    obtain ⟨h1, h2, h3⟩ := stepEv_fixed b hq e
    obtain ⟨g1, g2, g3⟩ := ih (stepEv b e) (by rw [h1, h2, hq])
    have hrw : runEvents (e :: rest) b = runEvents rest (stepEv b e) := rfl
    rw [hrw, g1, g2, g3]
    exact ⟨h1, h2, h3⟩

/-- Every push leaves the history well formed with the cursor at the top. -/
theorem hpush_wfH (N : ℕ) (hN : 1 ≤ N) (h : History CanvasState) (s : CanvasState) :
    wfH (hpush N h s) := by
  rcases hE : h.entries.take (h.cursor + 1) with _ | ⟨a, t⟩
  · simp only [hpush, hE, List.nil_append, List.length_singleton]
    rw [if_neg (by omega)]
    exact ⟨rfl, s, rfl⟩
  · simp only [hpush, hE]
    split_ifs with hlt
    · have hd : ((a :: t) ++ [s]).drop 1 = t ++ [s] := rfl
      have hlen : ((a :: t) ++ [s]).length = t.length + 2 := by
        simp only [List.length_append, List.length_cons, List.length_nil]
      constructor
      · dsimp only
        rw [hd, hlen, List.length_append, List.length_cons, List.length_nil]
        omega
      · refine ⟨s, ?_⟩
        dsimp only
        rw [hd, hlen]
        have hidx : t.length + 2 - 1 - 1 = t.length := by omega
        rw [hidx]
        exact List.get?_concat_length t s
    · have hlen : ((a :: t) ++ [s]).length = t.length + 2 := by
        simp only [List.length_append, List.length_cons, List.length_nil]
      constructor
      · dsimp only
        rw [hlen]
        omega
      · refine ⟨s, ?_⟩
        dsimp only
        rw [hlen]
        have hidx : t.length + 2 - 1 = (a :: t).length := by
          rw [List.length_cons]
          omega
        rw [hidx]
        exact List.get?_concat_length (a :: t) s

/-- A run of pushes from the initial history is well formed. -/
theorem pushAll_wfH (N : ℕ) (hN : 1 ≤ N) (ss : List CanvasState) :
    ∀ (h : History CanvasState), wfH h → wfH (pushAll N h ss) := by
  induction ss with
  | nil => intro h hw; exact hw
  | cons s rest ih =>
    intro h hw
    exact ih (hpush N h s) (hpush_wfH N hN h s)

/-- Field accounting for the deferred sync step. -/
theorem syncStep_parts (b : BridgeState) :
    (syncStep b).canvas = b.canvas ∧ (syncStep b).histState = b.canvas ∧
    (syncStep b).hist = hpush 50 b.hist b.canvas :=
  ⟨rfl, rfl, rfl⟩

/-- On a live, differing state, a poll tick performs exactly the push that the
deferred sync would perform. -/
theorem pollTick_eq_syncStep (b : BridgeState) (hap : b.applying = false)
    (hne : ¬ b.canvas = b.histState) : pollTick b = syncStep b := by
  simp [pollTick, hap, hne, syncStep]

/-- Unfolding one poll tick from a replicated schedule. -/
theorem runEvents_replicate_poll_succ (k : ℕ) (b : BridgeState) :
    runEvents (List.replicate (k + 1) BridgeEv.poll) b =
      runEvents (List.replicate k BridgeEv.poll) (pollTick b) := by
  rw [List.replicate_succ]
  rfl

/-- Pushing with the cursor at the top of a history strictly below capacity
appends one entry and leaves the cursor at the new top. -/
theorem hpush_top_len (N : ℕ) (h : History CanvasState) (s : CanvasState)
    (hwfc : h.cursor + 1 = h.entries.length) (hle : h.entries.length + 1 ≤ N) :
    (hpush N h s).entries.length = h.entries.length + 1 ∧
    (hpush N h s).cursor + 1 = (hpush N h s).entries.length := by
  have htake : h.entries.take (h.cursor + 1) = h.entries := by
    rw [hwfc, List.take_length]
  have hlen1 : (h.entries.take (h.cursor + 1) ++ [s]).length = h.entries.length + 1 := by
    rw [htake, List.length_append, List.length_singleton]
  have hnlt : ¬ N < (h.entries.take (h.cursor + 1) ++ [s]).length := by
    rw [hlen1]
    omega
  simp only [hpush, if_neg hnlt]
  constructor
  · exact hlen1
  · dsimp only
    rw [hlen1]
    omega

/-- C9 amended: a single insertFragment call on a state-changing fragment,
followed by its deferred sync with m poll ticks before it and r after it,
grows the history by exactly one entry when no poll tick fires in between, and
by exactly two entries (the second a duplicate) when at least one does. -/
theorem insertFragment_entry_count (gen : ℕ → String) (col : String) (frag : Fragment)
    (b : BridgeState) (m r : ℕ)
    (hap : b.applying = false)
    (hwfc : b.hist.cursor + 1 = b.hist.entries.length)
    (hcap : b.hist.entries.length + 2 ≤ 50)
    (hch : insertTemplate gen col b.canvas frag ≠ b.histState) :
    (runEvents (List.replicate r BridgeEv.poll)
      (syncStep (runEvents (List.replicate m BridgeEv.poll)
        (insertFragmentOp gen col frag b)))).hist.entries.length =
      b.hist.entries.length + (if m = 0 then 1 else 2) := by
  have hb1a : (insertFragmentOp gen col frag b).applying = b.applying := rfl
  cases m with
  | zero =>
    have h0 : runEvents (List.replicate 0 BridgeEv.poll) (insertFragmentOp gen col frag b) =
        insertFragmentOp gen col frag b := rfl
    rw [h0]
    have hq1 : (syncStep (insertFragmentOp gen col frag b)).canvas =
        (syncStep (insertFragmentOp gen col frag b)).histState := rfl
    obtain ⟨g1, g2, g3⟩ := runEvents_fixed (List.replicate r BridgeEv.poll) _ hq1
    rw [g3]
    have hs1 : (syncStep (insertFragmentOp gen col frag b)).hist =
        hpush 50 b.hist (insertTemplate gen col b.canvas frag) := rfl
    rw [hs1]
    obtain ⟨l1, l2⟩ := hpush_top_len 50 b.hist _ hwfc (by omega)
    rw [l1]
    simp
  | succ n =>
    rw [runEvents_replicate_poll_succ,
      pollTick_eq_syncStep (insertFragmentOp gen col frag b) (by rw [hb1a, hap]) hch]
    have hq1 : (syncStep (insertFragmentOp gen col frag b)).canvas =
        (syncStep (insertFragmentOp gen col frag b)).histState := rfl
    obtain ⟨g1, g2, g3⟩ := runEvents_fixed (List.replicate n BridgeEv.poll) _ hq1
    have h2 : (syncStep (runEvents (List.replicate n BridgeEv.poll)
        (syncStep (insertFragmentOp gen col frag b)))).hist =
        hpush 50 (hpush 50 b.hist (insertTemplate gen col b.canvas frag))
          (insertTemplate gen col b.canvas frag) := by
      show hpush 50 (runEvents (List.replicate n BridgeEv.poll)
          (syncStep (insertFragmentOp gen col frag b))).hist
        (runEvents (List.replicate n BridgeEv.poll)
          (syncStep (insertFragmentOp gen col frag b))).canvas = _
      rw [g3, g1]
      rfl
    have hq3 : (syncStep (runEvents (List.replicate n BridgeEv.poll)
        (syncStep (insertFragmentOp gen col frag b)))).canvas =
        (syncStep (runEvents (List.replicate n BridgeEv.poll)
          (syncStep (insertFragmentOp gen col frag b)))).histState := rfl
    obtain ⟨k1, k2, k3⟩ := runEvents_fixed (List.replicate r BridgeEv.poll) _ hq3
    rw [k3, h2]
    obtain ⟨l1, l2⟩ := hpush_top_len 50 b.hist
      (insertTemplate gen col b.canvas frag) hwfc (by omega)
    obtain ⟨l3, l4⟩ := hpush_top_len 50 (hpush 50 b.hist (insertTemplate gen col b.canvas frag))
      (insertTemplate gen col b.canvas frag) l2 (by rw [l1]; omega)
    rw [l3, l1]
    simp

/-- C9 witness: with no poll tick before the deferred sync, inserting the
round-trip rectangle fragment into the quiescent one-entry bridge produces
exactly one new history entry. -/
theorem insertFragment_entry_count_witness :
    (runEvents (List.replicate 1 BridgeEv.poll)
      (syncStep (runEvents (List.replicate 0 BridgeEv.poll)
        (insertFragmentOp cexGen "#000000" rectFragment quiesBridge)))).hist.entries.length =
      quiesBridge.hist.entries.length + (if 0 = 0 then 1 else 2) :=
  insertFragment_entry_count cexGen "#000000" rectFragment quiesBridge 0 1
    rfl rfl (by decide) (by decide)

/-- C9 counterexample: if one poll tick fires between the insert and its
deferred sync, the same insertion is recorded twice: the history grows from
one entry to three, not to two as the claim of exactly one new entry demands. -/
theorem insertFragment_double_push_cex :
    (syncStep (runEvents [BridgeEv.poll]
      (insertFragmentOp cexGen "#000000" rectFragment quiesBridge))).hist.entries.length = 3 ∧
    quiesBridge.hist.entries.length = 1 := by
  constructor
  · decide
  · decide

/-- C8 counterexample: getCanvasData returns the live arrays themselves, so
writing a stroke through the returned snapshot changes what the live
DrawingState reads: the snapshot is not an independent copy. -/
theorem getCanvasData_alias_cex :
    readLines (writeLines heap0 (getCanvasData refs0).linesRef [penLine]) refs0.linesRef ≠
      readLines heap0 refs0.linesRef := by
  decide

/-- C8 amended: getCanvasData returns the component references unchanged (no
copy is made, the snapshot aliases the live arrays, and writes through it are
visible to the live state); nevertheless a committing component edit allocates
a fresh array and repoints the live reference, so it leaves the contents seen
through an earlier snapshot reference unchanged. -/
theorem getCanvasData_alias_spec (h : CanvasHeap) (c : CanvasRefs) (s : ShapeData)
    (v : List LineData) (hwf : c.shapesRef < h.next) :
    getCanvasData c = c ∧
    readLines (writeLines h (getCanvasData c).linesRef v) c.linesRef = v ∧
    readShapes (commitShapeHeap h c s).1 (getCanvasData c).shapesRef =
      readShapes h c.shapesRef := by
  refine ⟨rfl, ?_, ?_⟩
  · simp [readLines, writeLines, getCanvasData]
  · show (if c.shapesRef = h.next then h.shapeMem c.shapesRef ++ [s]
      else h.shapeMem c.shapesRef) = h.shapeMem c.shapesRef
    rw [if_neg (Nat.ne_of_lt hwf)]

/-- C8 amended witness: on the concrete heap, the live shape reference is
allocated, a commit does not disturb the snapshot view, and a write through
the snapshot is a write to the live array. -/
theorem getCanvasData_alias_spec_witness :
    getCanvasData refs0 = refs0 ∧
    readLines (writeLines heap0 (getCanvasData refs0).linesRef [penLine]) refs0.linesRef =
      [penLine] ∧
    readShapes (commitShapeHeap heap0 refs0 binRect).1 (getCanvasData refs0).shapesRef =
      readShapes heap0 refs0.shapesRef :=
  getCanvasData_alias_spec heap0 refs0 binRect [penLine] (by decide)


/-- One run of the apply-history effect touches neither the history nor the
history state. -/
theorem applyHistoryPass_parts (gen : ℕ → String) (color : String) (b : BridgeState) :
    (applyHistoryPass gen color b).hist = b.hist ∧
    (applyHistoryPass gen color b).histState = b.histState := by
  unfold applyHistoryPass
  split_ifs <;> exact ⟨rfl, rfl⟩

/-- After a run of the apply-history effect the component is settled: either
the suppression flag is up or the canvas agrees with the history state. -/
theorem applyHistoryPass_settled (gen : ℕ → String) (color : String) (b : BridgeState) :
    (applyHistoryPass gen color b).applying = true ∨
    (applyHistoryPass gen color b).canvas = (applyHistoryPass gen color b).histState := by
  unfold applyHistoryPass
  split_ifs with h1 h2
  · exact Or.inl h1
  · exact Or.inr h2
  · exact Or.inl rfl

/-- In a settled state a poll tick does nothing: either suppression blocks it
or the comparison comes out equal. -/
theorem pollTick_settled (b : BridgeState)
    (hs : b.applying = true ∨ b.canvas = b.histState) : pollTick b = b := by
  unfold pollTick
  by_cases ha : b.applying = true
  · rw [if_pos ha]
  · rw [if_neg ha]
    rcases hs with h | h
    · exact absurd h ha
    · rw [if_pos h]

/-- From a settled state, every asynchronous event (poll tick or suppression
timeout, each followed by the effect pass) preserves the history and lands in
a settled state again. -/
theorem stepEvF_settled (gen : ℕ → String) (color : String) (b : BridgeState)
    (e : BridgeEv) (hs : b.applying = true ∨ b.canvas = b.histState) :
    (stepEvF gen color b e).hist = b.hist ∧
    ((stepEvF gen color b e).applying = true ∨
      (stepEvF gen color b e).canvas = (stepEvF gen color b e).histState) := by
  cases e with
  | poll =>
    have hrw : stepEvF gen color b BridgeEv.poll =
        applyHistoryPass gen color (pollTick b) := rfl
    rw [hrw, pollTick_settled b hs]
    exact ⟨(applyHistoryPass_parts gen color b).1, applyHistoryPass_settled gen color b⟩
  | reset =>
    exact ⟨(applyHistoryPass_parts gen color _).1, applyHistoryPass_settled gen color _⟩

/-- A settled bridge state keeps its entire history under any sequence of poll
ticks and suppression-timeout expiries. -/
theorem runEventsF_settled (gen : ℕ → String) (color : String) (evs : List BridgeEv) :
    ∀ (b : BridgeState), (b.applying = true ∨ b.canvas = b.histState) →
      (runEventsF gen color evs b).hist = b.hist := by
  induction evs with
  | nil => intro b _; rfl
  | cons e rest ih =>
    intro b hs
    obtain ⟨h1, h2⟩ := stepEvF_settled gen color b e hs
    have hrw : runEventsF gen color (e :: rest) b =
        runEventsF gen color rest (stepEvF gen color b e) := rfl
    rw [hrw, ih (stepEvF gen color b e) h2, h1]

/-- C3: triggering undo does not cause the polling loop to push anything: the
undo request restores under the raised suppression flag, and every later poll
tick or timeout expiry is followed by the apply-history effect, which keeps
the component suppressed or in sync with the history state, so no push fires
and the entry sequence is unchanged, for as many poll intervals as elapse. -/
theorem undo_no_duplicate_push (gen : ℕ → String) (color : String)
    (b : BridgeState) (evs : List BridgeEv) :
    (runEventsF gen color evs (undoRequest gen color b)).hist.entries = b.hist.entries ∧
    (runEventsF gen color evs (undoRequest gen color b)).hist.entries.length =
      b.hist.entries.length := by
  have hset : (undoRequest gen color b).applying = true ∨
      (undoRequest gen color b).canvas = (undoRequest gen color b).histState :=
    applyHistoryPass_settled gen color _
  have hh : (undoRequest gen color b).hist = hundo b.hist :=
    (applyHistoryPass_parts gen color _).1
  have he : (runEventsF gen color evs (undoRequest gen color b)).hist.entries =
      b.hist.entries := by
    rw [runEventsF_settled gen color evs _ hset, hh, (hundo_parts b.hist).1]
  exact ⟨he, by rw [he]⟩

/-- An undo request from a cursor-coherent bridge state preserves the entry
sequence, moves the cursor back one step, and stays cursor-coherent. -/
theorem undoRequest_parts (gen : ℕ → String) (color : String) (b : BridgeState)
    (hP : b.hist.entries.get? b.hist.cursor = some b.histState) :
    (undoRequest gen color b).hist.entries = b.hist.entries ∧
    (undoRequest gen color b).hist.cursor = b.hist.cursor - 1 ∧
    (undoRequest gen color b).hist.entries.get? (undoRequest gen color b).hist.cursor =
      some (undoRequest gen color b).histState := by
  have hh : (undoRequest gen color b).hist = hundo b.hist :=
    (applyHistoryPass_parts gen color _).1
  have hsS : (undoRequest gen color b).histState =
      hcurrent (hundo b.hist) b.histState :=
    (applyHistoryPass_parts gen color _).2
  obtain ⟨hu1, hu2⟩ := hundo_parts b.hist
  have hlt : b.hist.cursor < b.hist.entries.length := by
    by_contra hge
    rw [List.get?_eq_none.mpr (by omega)] at hP
    cases hP
  obtain ⟨v, hv⟩ : ∃ v, b.hist.entries.get? (b.hist.cursor - 1) = some v := by
    cases hE : b.hist.entries.get? (b.hist.cursor - 1) with
    | some v => exact ⟨v, rfl⟩
    | none =>
      rw [List.get?_eq_none] at hE
      omega
  have hcur : hcurrent (hundo b.hist) b.histState = v := by
    simp only [hcurrent, hu1, hu2, hv]
  exact ⟨by rw [hh, hu1], by rw [hh, hu2], by rw [hh, hu1, hu2, hsS, hcur, hv]⟩

/-- A redo request below the top, from a cursor-coherent bridge state:
entries survive, the cursor advances, coherence is kept. -/
theorem redoRequest_parts (gen : ℕ → String) (color : String) (b : BridgeState)
    (hP : b.hist.entries.get? b.hist.cursor = some b.histState)
    (hlt : b.hist.cursor < b.hist.entries.length - 1) :
    (redoRequest gen color b).hist.entries = b.hist.entries ∧
    (redoRequest gen color b).hist.cursor = b.hist.cursor + 1 ∧
    (redoRequest gen color b).hist.entries.get? (redoRequest gen color b).hist.cursor =
      some (redoRequest gen color b).histState := by
  have hh : (redoRequest gen color b).hist = hredo b.hist :=
    (applyHistoryPass_parts gen color _).1
  have hsS : (redoRequest gen color b).histState =
      hcurrent (hredo b.hist) b.histState :=
    (applyHistoryPass_parts gen color _).2
  have hr : hredo b.hist = ⟨b.hist.entries, b.hist.cursor + 1⟩ := by
    simp only [hredo, if_pos hlt]
  have hlen : b.hist.cursor < b.hist.entries.length := by
    by_contra hge
    rw [List.get?_eq_none.mpr (by omega)] at hP
    cases hP
  obtain ⟨v, hv⟩ : ∃ v, b.hist.entries.get? (b.hist.cursor + 1) = some v := by
    cases hE : b.hist.entries.get? (b.hist.cursor + 1) with
    | some v => exact ⟨v, rfl⟩
    | none =>
      rw [List.get?_eq_none] at hE
      omega
  have hcur : hcurrent (hredo b.hist) b.histState = v := by
    simp only [hcurrent, hr, hv]
  refine ⟨by rw [hh, hr], by rw [hh, hr], ?_⟩
  rw [hh, hr, hsS, hcur]
  exact hv

/-- The suppression timeout and its effect pass keep the history and the
history state; afterwards the canvas is the history state itself or its
restore-path normalization. -/
theorem suppressTimeout_parts (gen : ℕ → String) (color : String) (b : BridgeState) :
    (suppressTimeout gen color b).hist = b.hist ∧
    (suppressTimeout gen color b).histState = b.histState ∧
    ((suppressTimeout gen color b).canvas = b.histState ∨
      (suppressTimeout gen color b).canvas = restoreOf gen color b.histState) := by
  refine ⟨(applyHistoryPass_parts gen color _).1, (applyHistoryPass_parts gen color _).2, ?_⟩
  have hrw : suppressTimeout gen color b =
      applyHistoryPass gen color { b with applying := false } := rfl
  rw [hrw]
  unfold applyHistoryPass
  rw [if_neg (show ¬ ({ b with applying := false } : BridgeState).applying = true by simp)]
  by_cases hq : ({ b with applying := false } : BridgeState).canvas =
      ({ b with applying := false } : BridgeState).histState
  · rw [if_pos hq]
    exact Or.inl hq
  · rw [if_neg hq]
    exact Or.inr rfl

/-- A settled undo (request plus its timeout): entries survive, the cursor
moves back, coherence is kept, and the canvas is the new history state or its
restore normalization. -/
theorem undoStep_parts (gen : ℕ → String) (color : String) (b : BridgeState)
    (hP : b.hist.entries.get? b.hist.cursor = some b.histState) :
    (undoStep gen color b).hist.entries = b.hist.entries ∧
    (undoStep gen color b).hist.cursor = b.hist.cursor - 1 ∧
    (undoStep gen color b).hist.entries.get? (undoStep gen color b).hist.cursor =
      some (undoStep gen color b).histState ∧
    ((undoStep gen color b).canvas = (undoStep gen color b).histState ∨
      (undoStep gen color b).canvas =
        restoreOf gen color (undoStep gen color b).histState) := by
  obtain ⟨e1, c1, P1⟩ := undoRequest_parts gen color b hP
  obtain ⟨t1, t2, t3⟩ := suppressTimeout_parts gen color (undoRequest gen color b)
  have hstep : undoStep gen color b = suppressTimeout gen color (undoRequest gen color b) := rfl
  rw [hstep, t1, t2]
  exact ⟨e1, c1, P1, t3⟩

/-- A settled redo below the top, symmetric to undoStep_parts. -/
theorem redoStep_parts (gen : ℕ → String) (color : String) (b : BridgeState)
    (hP : b.hist.entries.get? b.hist.cursor = some b.histState)
    (hlt : b.hist.cursor < b.hist.entries.length - 1) :
    (redoStep gen color b).hist.entries = b.hist.entries ∧
    (redoStep gen color b).hist.cursor = b.hist.cursor + 1 ∧
    (redoStep gen color b).hist.entries.get? (redoStep gen color b).hist.cursor =
      some (redoStep gen color b).histState ∧
    ((redoStep gen color b).canvas = (redoStep gen color b).histState ∨
      (redoStep gen color b).canvas =
        restoreOf gen color (redoStep gen color b).histState) := by
  obtain ⟨e1, c1, P1⟩ := redoRequest_parts gen color b hP hlt
  obtain ⟨t1, t2, t3⟩ := suppressTimeout_parts gen color (redoRequest gen color b)
  have hstep : redoStep gen color b = suppressTimeout gen color (redoRequest gen color b) := rfl
  rw [hstep, t1, t2]
  exact ⟨e1, c1, P1, t3⟩

/-- Iterated settled undo: entries survive, the cursor moves back k steps
(saturating at 0), coherence and the canvas disjunction are kept. -/
theorem undoStepN_parts (gen : ℕ → String) (color : String) (k : ℕ) :
    ∀ (b : BridgeState),
      b.hist.entries.get? b.hist.cursor = some b.histState →
      (b.canvas = b.histState ∨ b.canvas = restoreOf gen color b.histState) →
      ((undoStep gen color)^[k] b).hist.entries = b.hist.entries ∧
      ((undoStep gen color)^[k] b).hist.cursor = b.hist.cursor - k ∧
      ((undoStep gen color)^[k] b).hist.entries.get?
          ((undoStep gen color)^[k] b).hist.cursor =
        some ((undoStep gen color)^[k] b).histState ∧
      (((undoStep gen color)^[k] b).canvas = ((undoStep gen color)^[k] b).histState ∨
        ((undoStep gen color)^[k] b).canvas =
          restoreOf gen color (((undoStep gen color)^[k] b).histState)) := by
  induction k with
  | zero =>
    intro b hP hQ
    rw [Function.iterate_zero_apply]
    exact ⟨rfl, by omega, hP, hQ⟩
  | succ n ih =>
    intro b hP _
    obtain ⟨h1, h2, h3, h4⟩ := undoStep_parts gen color b hP
    obtain ⟨g1, g2, g3, g4⟩ := ih (undoStep gen color b) h3 h4
    rw [Function.iterate_succ_apply]
    refine ⟨by rw [g1, h1], ?_, g3, g4⟩
    rw [g2, h2]
    omega

/-- Iterated settled redo while the cursor stays in range. -/
theorem redoStepN_parts (gen : ℕ → String) (color : String) (k : ℕ) :
    ∀ (b : BridgeState),
      b.hist.entries.get? b.hist.cursor = some b.histState →
      (b.canvas = b.histState ∨ b.canvas = restoreOf gen color b.histState) →
      b.hist.cursor + k ≤ b.hist.entries.length - 1 →
      ((redoStep gen color)^[k] b).hist.entries = b.hist.entries ∧
      ((redoStep gen color)^[k] b).hist.cursor = b.hist.cursor + k ∧
      ((redoStep gen color)^[k] b).hist.entries.get?
          ((redoStep gen color)^[k] b).hist.cursor =
        some ((redoStep gen color)^[k] b).histState ∧
      (((redoStep gen color)^[k] b).canvas = ((redoStep gen color)^[k] b).histState ∨
        ((redoStep gen color)^[k] b).canvas =
          restoreOf gen color (((redoStep gen color)^[k] b).histState)) := by
  induction k with
  | zero =>
    intro b hP hQ _
    rw [Function.iterate_zero_apply]
    exact ⟨rfl, by omega, hP, hQ⟩
  | succ n ih =>
    intro b hP _ hbound
    obtain ⟨h1, h2, h3, h4⟩ := redoStep_parts gen color b hP (by omega)
    obtain ⟨g1, g2, g3, g4⟩ := ih (redoStep gen color b) h3 h4 (by rw [h1, h2]; omega)
    rw [Function.iterate_succ_apply]
    refine ⟨by rw [g1, h1], ?_, g3, g4⟩
    rw [g2, h2]
    omega

/-- Roundtrip over the faithful restore: on a well-formed history, k settled
undos then k settled redos return the cursor and history state to the top
entry, and leave the canvas showing that entry verbatim or its restore-path
normalization; under normalization-invariance of the entry the surface equals
the pre-undo canvas exactly. -/
theorem roundtrip_core (gen : ℕ → String) (color : String)
    (h : History CanvasState) (hw : wfH h) (k : ℕ)
    (hk : k ≤ h.entries.length - 1) :
    ((redoStep gen color)^[k] ((undoStep gen color)^[k] (mkBridge h))).hist.entries =
      h.entries ∧
    ((redoStep gen color)^[k] ((undoStep gen color)^[k] (mkBridge h))).hist.cursor =
      h.cursor ∧
    ((redoStep gen color)^[k] ((undoStep gen color)^[k] (mkBridge h))).histState =
      hcurrent h clearCanvas ∧
    (((redoStep gen color)^[k] ((undoStep gen color)^[k] (mkBridge h))).canvas =
        hcurrent h clearCanvas ∨
      ((redoStep gen color)^[k] ((undoStep gen color)^[k] (mkBridge h))).canvas =
        restoreOf gen color (hcurrent h clearCanvas)) ∧
    (restoreOf gen color (hcurrent h clearCanvas) = hcurrent h clearCanvas →
      ((redoStep gen color)^[k] ((undoStep gen color)^[k] (mkBridge h))).canvas =
        (mkBridge h).canvas) := by
  obtain ⟨hctop, v0, hv0⟩ := hw
  have hcur0 : hcurrent h clearCanvas = v0 := by
    simp only [hcurrent, hv0]
  have hmbh : (mkBridge h).hist = h := rfl
  have hmbc : (mkBridge h).canvas = hcurrent h clearCanvas := rfl
  have hP0 : (mkBridge h).hist.entries.get? (mkBridge h).hist.cursor =
      some (mkBridge h).histState := by
    show h.entries.get? h.cursor = some (hcurrent h clearCanvas)
    rw [hcur0, hv0]
  have hQ0 : (mkBridge h).canvas = (mkBridge h).histState ∨
      (mkBridge h).canvas = restoreOf gen color (mkBridge h).histState := Or.inl rfl
  obtain ⟨hu1, hu2, hu3, hu4⟩ := undoStepN_parts gen color k (mkBridge h) hP0 hQ0
  rw [hmbh] at hu1 hu2
  obtain ⟨hr1, hr2, hr3, hr4⟩ := redoStepN_parts gen color k _ hu3 hu4
    (by rw [hu1, hu2]; omega)
  have hefin : ((redoStep gen color)^[k] ((undoStep gen color)^[k] (mkBridge h))).hist.entries =
      h.entries := by rw [hr1, hu1]
  have hcfin : ((redoStep gen color)^[k] ((undoStep gen color)^[k] (mkBridge h))).hist.cursor =
      h.cursor := by
    rw [hr2, hu2]
    omega
  have hsfin : ((redoStep gen color)^[k] ((undoStep gen color)^[k] (mkBridge h))).histState =
      hcurrent h clearCanvas := by
    have hg := hr3
    rw [hefin, hcfin, hv0] at hg
    injection hg with hg2
    rw [← hg2, hcur0]
  refine ⟨hefin, hcfin, hsfin, ?_, ?_⟩
  · rw [hsfin] at hr4
    exact hr4
  · intro hid
    rw [hsfin] at hr4
    rw [hmbc]
    rcases hr4 with hc | hc
    · exact hc
    · rw [hc, hid]

/-- C1 amended: on any history built by pushes and any k at most the number of
entries minus one, k undos followed by k redos (each settled with its
suppression timeout) return the cursor and the history state to the pre-undo
entry, and the drawing surface shows that entry verbatim or its restore-path
normalization (insertTemplate filling in missing stroke, strokeWidth and fill
fields); whenever the restore normalization is the identity on the entry — in
particular when every shape of it already carries those style fields — the
surface is structurally equal to the pre-undo state. -/
theorem undo_redo_roundtrip_restore (gen : ℕ → String) (color : String)
    (s0 : CanvasState) (ss : List CanvasState) (k : ℕ) (h : History CanvasState)
    (hh : h = pushAll 50 (initHistory s0) ss)
    (hk : k ≤ h.entries.length - 1) :
    ((redoStep gen color)^[k] ((undoStep gen color)^[k] (mkBridge h))).hist.entries =
      h.entries ∧
    ((redoStep gen color)^[k] ((undoStep gen color)^[k] (mkBridge h))).hist.cursor =
      h.cursor ∧
    ((redoStep gen color)^[k] ((undoStep gen color)^[k] (mkBridge h))).histState =
      hcurrent h clearCanvas ∧
    (((redoStep gen color)^[k] ((undoStep gen color)^[k] (mkBridge h))).canvas =
        hcurrent h clearCanvas ∨
      ((redoStep gen color)^[k] ((undoStep gen color)^[k] (mkBridge h))).canvas =
        restoreOf gen color (hcurrent h clearCanvas)) ∧
    (restoreOf gen color (hcurrent h clearCanvas) = hcurrent h clearCanvas →
      ((redoStep gen color)^[k] ((undoStep gen color)^[k] (mkBridge h))).canvas =
        (mkBridge h).canvas) := by
  refine roundtrip_core gen color h ?_ k hk
  rw [hh]
  refine pushAll_wfH 50 (by omega) ss (initHistory s0) ?_
  exact ⟨rfl, s0, rfl⟩

/-- C1 amended witness: pushing a fully-styled rectangle canvas, one settled
undo and one settled redo bring the surface back to it exactly. -/
theorem undo_redo_roundtrip_restore_witness :
    ((redoStep cexGen "#000000")^[1] ((undoStep cexGen "#000000")^[1]
        (mkBridge (pushAll 50 (initHistory clearCanvas) [normCanvas])))).canvas =
      (mkBridge (pushAll 50 (initHistory clearCanvas) [normCanvas])).canvas :=
  (undo_redo_roundtrip_restore cexGen "#000000" clearCanvas [normCanvas] 1 _
    rfl (by decide)).2.2.2.2 (by decide)

/-- C1 counterexample: a two-entry history whose top entry holds a text shape
(created without a strokeWidth) is a history built by pushes, yet after one
undo and one redo the surface shows the restore normalization of the entry —
the text shape has gained strokeWidth 2 — and is not structurally equal to the
pre-undo canvas, even though the history state is the entry itself. -/
theorem undo_redo_roundtrip_cex :
    (redoStep cexGen "#000000" (undoStep cexGen "#000000"
        (mkBridge (pushAll 50 (initHistory clearCanvas) [textCanvas])))).histState =
      textCanvas ∧
    (redoStep cexGen "#000000" (undoStep cexGen "#000000"
        (mkBridge (pushAll 50 (initHistory clearCanvas) [textCanvas])))).canvas ≠
      (mkBridge (pushAll 50 (initHistory clearCanvas) [textCanvas])).canvas := by
  constructor
  · decide
  · decide

end CodeCanvas
